import Mathlib

/-!
Verification of the reconciliation pipeline of the ProjetDE repository.

The development shallowly embeds the row-processing logic of
src/parser_liste_csv/worker.py (the reconciler), the message parsing of
src/scraper_type_vehicule_html/worker.py (the change-notification
consumer) and the insert logic of src/ingest/worker.py, and proves the
specification claims about them.
-/

namespace ProjetDE

/-- A CSV cell / SQL column value. none models a pandas NaN (missing
value) or a SQL NULL; some s is an ordinary string value. -/
abbrev Cell := Option String

/-- The ASCII whitespace characters stripped by Python str.strip(). -/
def isSpace (c : Char) : Bool :=
  c == (' ') || c == ('\t') || c == ('\n') || c == ('\r') ||
  c == ('\x0b') || c == ('\x0c')

/-- Left strip: drop leading whitespace characters. -/
def lstripL (l : List Char) : List Char := l.dropWhile isSpace

/-- Right strip: drop trailing whitespace characters. -/
def rstripL (l : List Char) : List Char := (l.reverse.dropWhile isSpace).reverse

/-- Python str.strip(): remove leading and trailing whitespace. -/
def pyStrip (s : String) : String := ⟨rstripL (lstripL s.data)⟩

/-- normalize from src/parser_liste_csv/worker.py lines 39-43:
if pd.isna(val): return ""; return str(val).strip(). -/
def normalize : Cell → String
  | none => ⟨[]⟩
  | some s => pyStrip s

/-- Column header "Type_ID" of the snapshot CSV. -/
def colTypeId : String := "Type_ID"

/-- Column header "Authorisation_document_reference (EIN)". -/
def colEin : String := "Authorisation_document_reference (EIN)"

/-- Column header "Type_Name". -/
def colTypeName : String := "Type_Name"

/-- Column header "Authorisation_Status". -/
def colStatus : String := "Authorisation_Status"

/-- Column header "Last_Update". -/
def colLastUpdate : String := "Last_Update"

/-- Column header "ERA_URL". -/
def colUrl : String := "ERA_URL"

/-- A row of the persisted table liste_eratv. type_id is the primary
key; the remaining columns are nullable. -/
structure Row where
  type_id : String
  ein : Cell
  type_name : Cell
  status : Cell
  last_update : Cell
  url_tv : Cell
deriving DecidableEq

/-- One CSV row as yielded by df.iterrows(): an association from column
header to cell. A header absent from the list models a KeyError on
row[header]. -/
abbrev CsvRow := List (String × Cell)

/-- row[col]: none models the KeyError raised when the column is
missing. -/
def getCol (r : CsvRow) (c : String) : Option Cell :=
  (r.find? (fun p => p.1 == c)).map (fun p => p.2)

/-- The six normalized field values read from one snapshot row at the
top of the loop body of process_csv (worker.py lines 101-106). -/
structure Fields where
  type_id : String
  ein : String
  type_name : String
  status : String
  last_update : String
  url_tv : String
deriving DecidableEq

/-- Reading and normalizing the six tracked columns of one snapshot
row; none when any expected column is missing (KeyError). -/
def readFields (r : CsvRow) : Option Fields :=
  match getCol r colTypeId, getCol r colEin, getCol r colTypeName,
        getCol r colStatus, getCol r colLastUpdate, getCol r colUrl with
  | some a, some b, some c, some d, some e, some f =>
    some ⟨normalize a, normalize b, normalize c, normalize d, normalize e, normalize f⟩
  | _, _, _, _, _, _ => none

/-- SELECT * FROM liste_eratv WHERE type_id = %s, fetchone(): the first
row of the table whose type_id equals the given key. -/
def findRow (db : List Row) (tid : String) : Option Row :=
  db.find? (fun r => r.type_id == tid)

/-- The changed test of worker.py lines 112-118: some tracked field of
the existing row differs from the snapshot value after normalization. -/
def rowChanged (e : Row) (f : Fields) : Bool :=
  normalize e.ein != f.ein ||
  normalize e.type_name != f.type_name ||
  normalize e.status != f.status ||
  normalize e.last_update != f.last_update ||
  normalize e.url_tv != f.url_tv

/-- The effect of the UPDATE statement on one stored row: rows whose
type_id matches get the five tracked fields overwritten; type_id itself
is not in the SET list and is preserved. -/
def updRow (f : Fields) (r : Row) : Row :=
  if r.type_id == f.type_id then
    { r with ein := some f.ein, type_name := some f.type_name,
             status := some f.status, last_update := some f.last_update,
             url_tv := some f.url_tv }
  else r

/-- UPDATE liste_eratv SET ... WHERE type_id = %s over the whole table. -/
def updateRows (db : List Row) (f : Fields) : List Row := db.map (updRow f)

/-- The row appended by INSERT INTO liste_eratv VALUES (...). -/
def insertRow (f : Fields) : Row :=
  ⟨f.type_id, some f.ein, some f.type_name, some f.status,
   some f.last_update, some f.url_tv⟩

/-- The three outcomes of the select-then-branch logic of process_csv:
the INSERT branch, the UPDATE branch, and the silent skip. -/
inductive Classification
  | INSERT
  | UPDATE
  | UNCHANGED
deriving DecidableEq

/-- The classification process_csv gives a snapshot row against the
current table: no existing row means the INSERT branch, an existing row
with a differing tracked field means the UPDATE branch, otherwise the
row is skipped (UNCHANGED). -/
def classify (db : List Row) (f : Fields) : Classification :=
  match findRow db f.type_id with
  | none => Classification.INSERT
  | some e => if rowChanged e f then Classification.UPDATE else Classification.UNCHANGED

/-- The observable state threaded through one process_csv run. db is
the committed table (the code runs db_conn.commit() right after every
INSERT and every UPDATE, so the table state is committed at every row
boundary); published collects the bodies sent to QUEUE_OUT in order;
inserted and updated are the two counters; classes records, in order,
which branch each processed row took together with its fields. -/
structure RunState where
  db : List Row
  published : List String
  inserted : Nat
  updated : Nat
  classes : List (Classification × Fields)
deriving DecidableEq

/-- The loop body of process_csv (worker.py lines 108-150) for one row
whose fields were read successfully. -/
def applyRow (st : RunState) (f : Fields) : RunState :=
  match findRow st.db f.type_id with
  | some e =>
    if rowChanged e f then
      { st with db := updateRows st.db f,
                updated := st.updated + 1,
                published := st.published ++ [f.url_tv],
                classes := st.classes ++ [(Classification.UPDATE, f)] }
    else
      { st with classes := st.classes ++ [(Classification.UNCHANGED, f)] }
  | none =>
      { st with db := st.db ++ [insertRow f],
                inserted := st.inserted + 1,
                published := st.published ++ [f.url_tv],
                classes := st.classes ++ [(Classification.INSERT, f)] }

/-- The row loop of process_csv. The Bool is true when a KeyError on a
missing column aborted the loop (the exception propagates out of
process_csv and the message is nacked); the state returned with it is
the committed state at that moment. -/
def runRows : RunState → List CsvRow → RunState × Bool
  | st, [] => (st, false)
  | st, r :: rs =>
    match readFields r with
    | none => (st, true)
    | some f => runRows (applyRow st f) rs

/-- The state at the top of process_csv: counters zero, nothing
published yet, the table as currently persisted. -/
def initState (db : List Row) : RunState := ⟨db, [], 0, 0, []⟩

/-- One process_csv run over the parsed snapshot rows against the
persisted table. -/
def process_csv (db : List Row) (rows : List CsvRow) : RunState × Bool :=
  runRows (initState db) rows

/-- The committed table after the first k rows of a run, modelling an
interruption (crash or raised exception) before row k+1: because the
code commits after every single INSERT/UPDATE, the writes of the first
k rows are durable at that point. -/
def committedAfter (db : List Row) (rows : List CsvRow) (k : Nat) : List Row :=
  (runRows (initState db) (rows.take k)).1.db

/-- The normalized type_ids of the well-formed snapshot rows. -/
def snapKeys (rows : List CsvRow) : List String :=
  rows.filterMap (fun r => (readFields r).map (fun f => f.type_id))

/-- A snapshot row (already read into fields) is in sync with the
table: the fetchone lookup finds a row and no tracked field differs
after normalization. -/
def fieldsSynced (db : List Row) (f : Fields) : Bool :=
  match findRow db f.type_id with
  | none => false
  | some e => !(rowChanged e f)

/-- A raw snapshot row is in sync with the table: it is well formed and
its fields are in sync. -/
def rowSynced (db : List Row) (r : CsvRow) : Bool :=
  match readFields r with
  | none => false
  | some f => fieldsSynced db f

/-- All six field values are fixed points of stripping (true of every
Fields produced by readFields, whose values come out of normalize). -/
def Normed (f : Fields) : Prop :=
  pyStrip f.ein = f.ein ∧ pyStrip f.type_name = f.type_name ∧
  pyStrip f.status = f.status ∧ pyStrip f.last_update = f.last_update ∧
  pyStrip f.url_tv = f.url_tv

/-- Selects the INSERT entries of the classification log. -/
def isInsert (c : Classification × Fields) : Bool :=
  match c.1 with
  | Classification.INSERT => true
  | _ => false

/-- Selects the UPDATE entries of the classification log. -/
def isUpdate (c : Classification × Fields) : Bool :=
  match c.1 with
  | Classification.UPDATE => true
  | _ => false

/-- Selects the entries of the classification log that publish a
notification (the INSERT and UPDATE branches). -/
def isChangedClass (c : Classification × Fields) : Bool :=
  match c.1 with
  | Classification.UNCHANGED => false
  | _ => true

/-- The notification body the INSERT and UPDATE branches publish: the
normalized ERA_URL value alone (worker.py lines 131-136 and 145-150
pass body=url_tv). -/
def urlOf (c : Classification × Fields) : String := c.2.url_tv

/-- A parsed-record message consumed by src/ingest/worker.py: JSON with
four optional string fields read via data.get(...). -/
structure ParsedMsg where
  title : Option String
  summary : Option String
  date : Option String
  xml_file_path : Option String
deriving DecidableEq

/-- A row of the items table written by the ingest stage. -/
structure Item where
  title : Option String
  summary : Option String
  date : Option String
  xml_file_path : Option String
  status : String
deriving DecidableEq

/-- Status literal "parsed" hard-coded in the ingest INSERT. -/
def statusParsed : String := "parsed"

/-- The row built from one parsed-record message. -/
def itemOf (d : ParsedMsg) : Item :=
  ⟨d.title, d.summary, d.date, d.xml_file_path, statusParsed⟩

/-- insert_into_db from src/ingest/worker.py lines 14-33: a plain
INSERT INTO items appending one new row; there is no key lookup, no
upsert and no conflict clause. -/
def insert_into_db (items : List Item) (d : ParsedMsg) : List Item :=
  items ++ [itemOf d]

/-- The separator character of the change-notification framing. -/
def sepBar : Char := '|'

/-- Helper for Python s.split(sep, 1) with a one-character separator:
the parts before and after the first occurrence of the separator, or
none when the separator does not occur. -/
def splitFirst (sep : Char) : List Char → Option (List Char × List Char)
  | [] => none
  | c :: cs =>
    if c == sep then some ([], cs)
    else (splitFirst sep cs).map (fun p => (c :: p.1, p.2))

/-- Python s.split(sep, 1) for a one-character separator: one element
when the separator is absent, otherwise exactly two. -/
def pySplit1 (s : String) (sep : Char) : List String :=
  match splitFirst sep s.data with
  | none => [s]
  | some (a, b) => [⟨a⟩, ⟨b⟩]

/-- The message handling at the top of the callback of
src/scraper_type_vehicule_html/worker.py lines 105-129:
message = body.decode().strip(); type_id, era_url = message.split("|", 1).
Returns the unpacked pair, or none when the unpacking raises ValueError
(one-element split result), in which case the message is nacked. -/
def callbackParse (body : String) : Option (String × String) :=
  match pySplit1 (pyStrip body) sepBar with
  | [a, b] => some (a, b)
  | _ => none

/-- The path separator character. -/
def slashChar : Char := '/'

/-- The path separator as a string. -/
def sSlash : String := "/"

/-- os.path.basename for POSIX paths: the portion of the path after
the last slash (p[p.rfind(sep)+1:]). -/
def basename (p : String) : String :=
  ⟨(p.data.reverse.takeWhile (fun c => !(c == slashChar))).reverse⟩

/-- b.startswith("/") at the character level. -/
def startsWithSlash (s : String) : Bool :=
  match s.data with
  | [] => false
  | c :: _ => c == slashChar

/-- a.endswith("/") at the character level. -/
def endsWithSlash (s : String) : Bool :=
  match s.data.getLast? with
  | none => false
  | some c => c == slashChar

/-- os.path.join(a, b) for POSIX paths: an absolute b replaces a; an
empty or slash-terminated a is prefixed as is; otherwise a separator is
inserted. -/
def osPathJoin (a b : String) : String :=
  if startsWithSlash b then b
  else if a.data.isEmpty || endsWithSlash a then a ++ b
  else a ++ sSlash ++ b

/-- The DATA_DIR default of src/parser_liste_csv/worker.py. -/
def DATA_DIR : String := "/app/data/csv_listes"

/-- file_path = os.path.join(DATA_DIR, os.path.basename(csv_file)) at
the top of process_csv (worker.py line 91). -/
def filePath (dataDir msg : String) : String := osPathJoin dataDir (basename msg)

/-- true when the first list occurs as a contiguous run at the head of
the second. -/
def leadsWith : List Char → List Char → Bool
  | [], _ => true
  | _ :: _, [] => false
  | a :: as, b :: bs => a == b && leadsWith as bs

/-- true when the first list occurs as a contiguous run anywhere inside
the second. -/
def isSubstr : List Char → List Char → Bool
  | n, [] => leadsWith n []
  | n, c :: t => leadsWith n (c :: t) || isSubstr n t

/-! Concrete values used to instantiate the theorems. -/

/-- Sample identifier. -/
def tT1 : String := "T1"

/-- Second sample identifier. -/
def tT2 : String := "T2"

/-- Identifier of a row untouched by the sample snapshots. -/
def tZ : String := "Z9"

/-- Sample EIN value. -/
def vEin : String := "EIN-001"

/-- Sample EIN value with surrounding whitespace. -/
def vEinSp : String := " EIN-001 "

/-- Sample type name. -/
def vName : String := "RegioUnit"

/-- Sample status value. -/
def vStatus : String := "Active"

/-- Sample status value with surrounding whitespace. -/
def sSpacedActive : String := "  Active "

/-- Sample date value. -/
def vDate : String := "2024-01-01"

/-- Sample detail URL; note that it does not contain the identifier. -/
def urlT1 : String := "https://eratv.era.europa.eu/Home/View"

/-- Second sample detail URL. -/
def urlT2 : String := "https://example.org/t2"

/-- The empty string. -/
def emptyStr : String := ""

/-- The bar separator as a string. -/
def sBarStr : String := "|"

/-- A persisted row for T1 holding the plain (unspaced) values. -/
def rowT1 : Row := ⟨tT1, some vEin, some vName, some vStatus, some vDate, some urlT1⟩

/-- A persisted row keyed Z9, untouched by the sample snapshots. -/
def rowZ : Row := ⟨tZ, some vEin, some vName, some vStatus, some vDate, some urlT2⟩

/-- A snapshot row matching rowT1 up to whitespace normalization. -/
def csvRowT1 : CsvRow :=
  [(colTypeId, some tT1), (colEin, some vEinSp), (colTypeName, some vName),
   (colStatus, some sSpacedActive), (colLastUpdate, some vDate), (colUrl, some urlT1)]

/-- A well-formed snapshot row keyed T1 with plain values. -/
def csvRowA : CsvRow :=
  [(colTypeId, some tT1), (colEin, some vEin), (colTypeName, some vName),
   (colStatus, some vStatus), (colLastUpdate, some vDate), (colUrl, some urlT1)]

/-- A well-formed snapshot row keyed T2 with plain values. -/
def csvRowB : CsvRow :=
  [(colTypeId, some tT2), (colEin, some vEin), (colTypeName, some vName),
   (colStatus, some vStatus), (colLastUpdate, some vDate), (colUrl, some urlT2)]

/-- A snapshot row whose Type_ID cell is empty (a pandas NaN). -/
def csvRowEmptyId : CsvRow :=
  [(colTypeId, none), (colEin, some vEin), (colTypeName, some vName),
   (colStatus, some vStatus), (colLastUpdate, some vDate), (colUrl, some urlT2)]

/-- A snapshot row missing every expected column but Type_ID: reading
it raises KeyError. -/
def csvRowMissing : CsvRow := [(colTypeId, some tT2)]

/-- A persisted row whose tracked fields carry surrounding whitespace. -/
def rowSp : Row := ⟨tT1, some vEinSp, some vName, some sSpacedActive, some vDate, some urlT1⟩

/-- A persisted row with the same fields as rowSp after normalization. -/
def rowPl : Row := ⟨tT2, some vEin, some vName, some vStatus, some vDate, some urlT1⟩

/-- A fields record with plain values. -/
def fW : Fields := ⟨tT1, vEin, vName, vStatus, vDate, urlT1⟩

/-- A sample parsed-record message for the ingest stage. -/
def mParsed : ParsedMsg := ⟨some vName, some vStatus, some vDate, some urlT2⟩

/-- A list-ready message carrying a path-traversal attempt. -/
def mTraversal : String := "../../etc/passwd"

/-- The leading directory part of mTraversal. -/
def mDirs : String := ".."

/-- The rest of mTraversal after its first slash. -/
def mRest : String := "../etc/passwd"

/-! Helper lemmas on dropWhile / takeWhile and stripping. -/

/-- dropWhile never lengthens a list. -/
theorem dropWhile_sublen {α : Type} (p : α → Bool) :
    ∀ l : List α, (List.dropWhile p l).length ≤ l.length := by
  intro l
  induction l with
  | nil => simp
  | cons a l ih =>
    by_cases ha : p a = true
    · rw [List.dropWhile_cons_of_pos ha]
      exact Nat.le_succ_of_le ih
    · rw [List.dropWhile_cons_of_neg (by simp [ha])]

/-- The head surviving a dropWhile fails the predicate. -/
theorem dropWhile_head_false {α : Type} (p : α → Bool) :
    ∀ {l c t}, List.dropWhile p l = c :: t → p c = false := by
  intro l
  induction l with
  | nil => intro c t h; simp [List.dropWhile] at h
  | cons a l ih =>
    intro c t h
    by_cases ha : p a = true
    · rw [List.dropWhile_cons_of_pos ha] at h
      exact ih h
    · rw [List.dropWhile_cons_of_neg (by simp [ha])] at h
      injection h with h1 h2
      subst h1
      simpa using ha

/-- dropWhile is idempotent. -/
theorem dropWhile_idem {α : Type} (p : α → Bool) (l : List α) :
    List.dropWhile p (List.dropWhile p l) = List.dropWhile p l := by
  cases h : List.dropWhile p l with
  | nil => simp
  | cons c t =>
    have hc := dropWhile_head_false p h
    rw [List.dropWhile_cons_of_neg (by simp [hc])]

/-- takeWhile ignores everything at and after an element failing the
predicate. -/
theorem takeWhile_stop {α : Type} (p : α → Bool) (x : α) (hx : p x = false) :
    ∀ l m : List α, ((l ++ x :: m).takeWhile p) = l.takeWhile p := by
  intro l m
  induction l with
  | nil => simp [List.takeWhile_cons, hx]
  | cons a l ih =>
    by_cases ha : p a = true
    · simp [List.takeWhile_cons, ha, ih]
    · simp [List.takeWhile_cons, ha]

/-- Left stripping is idempotent. -/
theorem lstripL_idem (l : List Char) : lstripL (lstripL l) = lstripL l :=
  dropWhile_idem isSpace l

/-- Right stripping is idempotent. -/
theorem rstripL_idem (l : List Char) : rstripL (rstripL l) = rstripL l := by
  unfold rstripL
  rw [List.reverse_reverse, dropWhile_idem]

/-- A list decomposes as its right strip followed by trailing spaces. -/
theorem rstripL_decomp (l : List Char) :
    rstripL l ++ (l.reverse.takeWhile isSpace).reverse = l := by
  unfold rstripL
  rw [← List.reverse_append, List.takeWhile_append_dropWhile, List.reverse_reverse]

/-- A nonempty left-stripped list starts with a non-space character. -/
theorem head_not_space_of_lstrip {c : Char} {t : List Char}
    (h : lstripL (c :: t) = c :: t) : isSpace c = false := by
  unfold lstripL at h
  by_cases hc : isSpace c = true
  · rw [List.dropWhile_cons_of_pos hc] at h
    have h1 := dropWhile_sublen isSpace t
    have h2 : (List.dropWhile isSpace t).length = t.length + 1 := by rw [h]; rfl
    omega
  · simpa using hc

/-- Right stripping a left-stripped list leaves it left-stripped. -/
theorem lstripL_rstripL (l : List Char) (h : lstripL l = l) :
    lstripL (rstripL l) = rstripL l := by
  cases hl : rstripL l with
  | nil => rfl
  | cons c t =>
    have hd := rstripL_decomp l
    rw [hl] at hd
    have hd' : c :: (t ++ (l.reverse.takeWhile isSpace).reverse) = l := by
      rw [← List.cons_append]
      exact hd
    have hspace : isSpace c = false := head_not_space_of_lstrip (t := t ++ (l.reverse.takeWhile isSpace).reverse) (by rw [hd']; exact h)
    unfold lstripL
    rw [List.dropWhile_cons_of_neg (by simp [hspace])]

/-- Python strip is idempotent. -/
theorem pyStrip_idem (s : String) : pyStrip (pyStrip s) = pyStrip s := by
  show (⟨rstripL (lstripL (rstripL (lstripL s.data)))⟩ : String) = ⟨rstripL (lstripL s.data)⟩
  have h1 : lstripL (rstripL (lstripL s.data)) = rstripL (lstripL s.data) :=
    lstripL_rstripL (lstripL s.data) (lstripL_idem s.data)
  rw [h1, rstripL_idem]

/-- pyStrip removes exactly a whitespace border: the original string is
some whitespace, then the stripped value, then some whitespace. -/
theorem pyStrip_decomp (s : String) :
    ∃ pre post, s.data = pre ++ (pyStrip s).data ++ post
      ∧ (∀ c ∈ pre, isSpace c = true) ∧ (∀ c ∈ post, isSpace c = true) := by
  refine ⟨s.data.takeWhile isSpace, ((lstripL s.data).reverse.takeWhile isSpace).reverse, ?_, ?_, ?_⟩
  · conv_lhs => rw [← List.takeWhile_append_dropWhile (p := isSpace) (l := s.data)]
    rw [List.append_assoc]
    congr 1
    exact (rstripL_decomp (lstripL s.data)).symm
  · intro c hc
    exact List.mem_takeWhile_imp hc
  · intro c hc
    rw [List.mem_reverse] at hc
    exact List.mem_takeWhile_imp hc

/-- normalize always lands on strip fixed points. -/
theorem normalize_normed (c : Cell) : pyStrip (normalize c) = normalize c := by
  cases c with
  | none => rfl
  | some s => exact pyStrip_idem s

/-- Every fields record produced by readFields is normalized. -/
theorem readFields_normed {r : CsvRow} {f : Fields} (h : readFields r = some f) :
    Normed f := by
  unfold readFields at h
  split at h
  · cases h
    exact ⟨normalize_normed _, normalize_normed _, normalize_normed _,
           normalize_normed _, normalize_normed _⟩
  · exact absurd h (by simp)

/-! Helper lemmas on the table lookup and the loop body. -/

/-- The UPDATE statement never rewrites the primary key. -/
theorem updRow_type_id (f : Fields) (r : Row) : (updRow f r).type_id = r.type_id := by
  unfold updRow
  split <;> rfl

/-- Lookup in a concatenated table: the left part wins. -/
theorem findRow_append (db1 db2 : List Row) (tid : String) :
    findRow (db1 ++ db2) tid =
      match findRow db1 tid with
      | some e => some e
      | none => findRow db2 tid := by
  induction db1 with
  | nil => simp [findRow]
  | cons r d ih =>
    by_cases h : (r.type_id == tid) = true
    · unfold findRow
      rw [List.cons_append,
          @List.find?_cons_of_pos _ (fun x => x.type_id == tid) r (d ++ db2) h,
          @List.find?_cons_of_pos _ (fun x => x.type_id == tid) r d h]
    · unfold findRow
      rw [List.cons_append,
          @List.find?_cons_of_neg _ (fun x => x.type_id == tid) r (d ++ db2) (by simp [h]),
          @List.find?_cons_of_neg _ (fun x => x.type_id == tid) r d (by simp [h])]
      exact ih

/-- Lookup after a whole-table UPDATE. -/
theorem findRow_updateRows (db : List Row) (f : Fields) (tid : String) :
    findRow (updateRows db f) tid = (findRow db tid).map (updRow f) := by
  induction db with
  | nil => rfl
  | cons r d ih =>
    show findRow (updRow f r :: updateRows d f) tid = _
    by_cases h : (r.type_id == tid) = true
    · unfold findRow
      rw [@List.find?_cons_of_pos _ (fun x => x.type_id == tid) (updRow f r)
            (updateRows d f) (show ((updRow f r).type_id == tid) = true by
              rw [updRow_type_id]; exact h),
          @List.find?_cons_of_pos _ (fun x => x.type_id == tid) r d h]
      rfl
    · unfold findRow
      rw [@List.find?_cons_of_neg _ (fun x => x.type_id == tid) (updRow f r)
            (updateRows d f) (show ¬ ((updRow f r).type_id == tid) = true by
              rw [updRow_type_id]; simp [h]),
          @List.find?_cons_of_neg _ (fun x => x.type_id == tid) r d (by simp [h])]
      exact ih

/-- The INSERT branch of the loop body. -/
theorem applyRow_insert {st : RunState} {f : Fields}
    (h : findRow st.db f.type_id = none) :
    applyRow st f = { st with db := st.db ++ [insertRow f],
                              inserted := st.inserted + 1,
                              published := st.published ++ [f.url_tv],
                              classes := st.classes ++ [(Classification.INSERT, f)] } := by
  unfold applyRow
  rw [h]

/-- The UPDATE branch of the loop body. -/
theorem applyRow_update {st : RunState} {f : Fields} {e : Row}
    (h : findRow st.db f.type_id = some e) (hc : rowChanged e f = true) :
    applyRow st f = { st with db := updateRows st.db f,
                              updated := st.updated + 1,
                              published := st.published ++ [f.url_tv],
                              classes := st.classes ++ [(Classification.UPDATE, f)] } := by
  unfold applyRow
  rw [h]
  simp [hc]

/-- The silent skip of the loop body. -/
theorem applyRow_unchanged {st : RunState} {f : Fields} {e : Row}
    (h : findRow st.db f.type_id = some e) (hc : rowChanged e f = false) :
    applyRow st f = { st with classes := st.classes ++ [(Classification.UNCHANGED, f)] } := by
  unfold applyRow
  rw [h]
  simp [hc]

/-- classify on a missing key. -/
theorem classify_of_none {db : List Row} {f : Fields}
    (h : findRow db f.type_id = none) : classify db f = Classification.INSERT := by
  unfold classify
  rw [h]

/-- classify on a changed existing row. -/
theorem classify_of_changed {db : List Row} {f : Fields} {e : Row}
    (h : findRow db f.type_id = some e) (hc : rowChanged e f = true) :
    classify db f = Classification.UPDATE := by
  unfold classify
  rw [h]
  simp [hc]

/-- classify on an unchanged existing row. -/
theorem classify_of_unchanged {db : List Row} {f : Fields} {e : Row}
    (h : findRow db f.type_id = some e) (hc : rowChanged e f = false) :
    classify db f = Classification.UNCHANGED := by
  unfold classify
  rw [h]
  simp [hc]

/-- Unfolding of the loop on a cons cell. -/
theorem runRows_cons (st : RunState) (r : CsvRow) (rs : List CsvRow) :
    runRows st (r :: rs) =
      match readFields r with
      | none => (st, true)
      | some f => runRows (applyRow st f) rs := rfl

/-- The loop aborts on a malformed row. -/
theorem runRows_cons_none {st : RunState} {r : CsvRow} {rs : List CsvRow}
    (h : readFields r = none) : runRows st (r :: rs) = (st, true) := by
  rw [runRows_cons, h]

/-- The loop steps over a well-formed row. -/
theorem runRows_cons_some {st : RunState} {r : CsvRow} {rs : List CsvRow} {f : Fields}
    (h : readFields r = some f) : runRows st (r :: rs) = runRows (applyRow st f) rs := by
  rw [runRows_cons, h]

/-- A freshly inserted row never counts as changed against its own
normalized fields. -/
theorem rowChanged_insertRow {f : Fields} (hN : Normed f) :
    rowChanged (insertRow f) f = false := by
  obtain ⟨h1, h2, h3, h4, h5⟩ := hN
  simp [rowChanged, insertRow, normalize, h1, h2, h3, h4, h5]

/-- A freshly updated row never counts as changed against its own
normalized fields. -/
theorem rowChanged_updRow {f : Fields} {e : Row}
    (he : (e.type_id == f.type_id) = true) (hN : Normed f) :
    rowChanged (updRow f e) f = false := by
  obtain ⟨h1, h2, h3, h4, h5⟩ := hN
  simp [rowChanged, updRow, he, normalize, h1, h2, h3, h4, h5]

/-- Componentwise reading of the INSERT branch. -/
theorem applyRow_parts_insert {st : RunState} {f : Fields}
    (h : findRow st.db f.type_id = none) :
    (applyRow st f).db = st.db ++ [insertRow f] ∧
    (applyRow st f).published = st.published ++ [f.url_tv] ∧
    (applyRow st f).inserted = st.inserted + 1 ∧
    (applyRow st f).updated = st.updated ∧
    (applyRow st f).classes = st.classes ++ [(Classification.INSERT, f)] := by
  rw [applyRow_insert h]
  exact ⟨rfl, rfl, rfl, rfl, rfl⟩

/-- Componentwise reading of the UPDATE branch. -/
theorem applyRow_parts_update {st : RunState} {f : Fields} {e : Row}
    (h : findRow st.db f.type_id = some e) (hc : rowChanged e f = true) :
    (applyRow st f).db = updateRows st.db f ∧
    (applyRow st f).published = st.published ++ [f.url_tv] ∧
    (applyRow st f).inserted = st.inserted ∧
    (applyRow st f).updated = st.updated + 1 ∧
    (applyRow st f).classes = st.classes ++ [(Classification.UPDATE, f)] := by
  rw [applyRow_update h hc]
  exact ⟨rfl, rfl, rfl, rfl, rfl⟩

/-- Componentwise reading of the skip branch. -/
theorem applyRow_parts_unchanged {st : RunState} {f : Fields} {e : Row}
    (h : findRow st.db f.type_id = some e) (hc : rowChanged e f = false) :
    (applyRow st f).db = st.db ∧
    (applyRow st f).published = st.published ∧
    (applyRow st f).inserted = st.inserted ∧
    (applyRow st f).updated = st.updated ∧
    (applyRow st f).classes = st.classes ++ [(Classification.UNCHANGED, f)] := by
  rw [applyRow_unchanged h hc]
  exact ⟨rfl, rfl, rfl, rfl, rfl⟩

/-- Each processed row appends exactly its classification to the log. -/
theorem applyRow_classes (st : RunState) (f : Fields) :
    (applyRow st f).classes = st.classes ++ [(classify st.db f, f)] := by
  cases h : findRow st.db f.type_id with
  | none => rw [classify_of_none h, (applyRow_parts_insert h).2.2.2.2]
  | some e =>
    by_cases hc : rowChanged e f = true
    · rw [classify_of_changed h hc, (applyRow_parts_update h hc).2.2.2.2]
    · have hc' : rowChanged e f = false := by simpa using hc
      rw [classify_of_unchanged h hc', (applyRow_parts_unchanged h hc').2.2.2.2]

/-- The loop body never shrinks the table. -/
theorem applyRow_db_len (st : RunState) (f : Fields) :
    st.db.length ≤ (applyRow st f).db.length := by
  cases h : findRow st.db f.type_id with
  | none =>
    rw [(applyRow_parts_insert h).1]
    simp
  | some e =>
    by_cases hc : rowChanged e f = true
    · rw [(applyRow_parts_update h hc).1]
      simp [updateRows]
    · have hc' : rowChanged e f = false := by simpa using hc
      rw [(applyRow_parts_unchanged h hc').1]

/-- A successful lookup returns a row bearing the looked-up key. -/
theorem findRow_some {db : List Row} {tid : String} {e : Row}
    (h : findRow db tid = some e) : (e.type_id == tid) = true := by
  unfold findRow at h
  exact @List.find?_some Row (fun r => r.type_id == tid) e db h

/-- After processing a row, its own key looks up a row that matches its
normalized fields. -/
theorem applyRow_fieldsSynced (st : RunState) (f : Fields) (hN : Normed f) :
    fieldsSynced (applyRow st f).db f = true := by
  cases h : findRow st.db f.type_id with
  | none =>
    unfold fieldsSynced
    rw [(applyRow_parts_insert h).1, findRow_append, h]
    have hsingle : findRow [insertRow f] f.type_id = some (insertRow f) := by
      unfold findRow
      rw [@List.find?_cons_of_pos _ (fun x => x.type_id == f.type_id) (insertRow f) []
            (by simp [insertRow])]
    simp [hsingle, rowChanged_insertRow hN]
  | some e =>
    have he : (e.type_id == f.type_id) = true := findRow_some h
    by_cases hc : rowChanged e f = true
    · unfold fieldsSynced
      rw [(applyRow_parts_update h hc).1, findRow_updateRows, h]
      simp [rowChanged_updRow he hN]
    · have hc' : rowChanged e f = false := by simpa using hc
      unfold fieldsSynced
      rw [(applyRow_parts_unchanged h hc').1, h]
      simp [hc']

/-- The loop body leaves lookups at every other key unchanged. -/
theorem applyRow_findRow_frame (st : RunState) (f : Fields) (tid : String)
    (hne : f.type_id ≠ tid) :
    findRow (applyRow st f).db tid = findRow st.db tid := by
  cases h : findRow st.db f.type_id with
  | none =>
    rw [(applyRow_parts_insert h).1, findRow_append]
    have hnil : findRow [insertRow f] tid = none := by
      unfold findRow
      rw [@List.find?_cons_of_neg _ (fun x => x.type_id == tid) (insertRow f) []
            (by simp [insertRow]; exact hne)]
      rfl
    rw [hnil]
    cases findRow st.db tid <;> rfl
  | some e =>
    by_cases hc : rowChanged e f = true
    · rw [(applyRow_parts_update h hc).1, findRow_updateRows]
      cases hfind : findRow st.db tid with
      | none => rfl
      | some e2 =>
        have he2 : e2.type_id = tid := by simpa using findRow_some hfind
        have hupd : updRow f e2 = e2 := by
          unfold updRow
          have hb : (e2.type_id == f.type_id) = false := by
            rw [he2]
            exact beq_eq_false_iff_ne.mpr (Ne.symm hne)
          simp [hb]
        simp [hupd]
    · have hc' : rowChanged e f = false := by simpa using hc
      rw [(applyRow_parts_unchanged h hc').1]

/-- In-sync state at a key only depends on the lookup at that key. -/
theorem fieldsSynced_congr {db1 db2 : List Row} (f : Fields)
    (h : findRow db1 f.type_id = findRow db2 f.type_id) :
    fieldsSynced db1 f = fieldsSynced db2 f := by
  unfold fieldsSynced
  rw [h]

/-- The whole loop leaves lookups at keys outside the snapshot
unchanged. -/
theorem runRows_frame : ∀ (rows : List CsvRow) (st : RunState) (tid : String),
    (∀ r ∈ rows, ∀ f, readFields r = some f → f.type_id ≠ tid) →
    findRow (runRows st rows).1.db tid = findRow st.db tid := by
  intro rows
  induction rows with
  | nil => intro st tid _; rfl
  | cons r rs ih =>
    intro st tid hall
    cases hf : readFields r with
    | none => rw [runRows_cons_none hf]
    | some f =>
      rw [runRows_cons_some hf,
          ih (applyRow st f) tid (fun x hx g hg => hall x (List.mem_cons_of_mem r hx) g hg)]
      exact applyRow_findRow_frame st f tid (hall r (List.mem_cons_self r rs) f hf)

/-- A run over rows that are all in sync with the table changes
nothing: no write, no publication, no counter, one UNCHANGED log entry
per row, no abort. -/
theorem runRows_all_synced : ∀ (rows : List CsvRow) (st : RunState),
    (∀ r ∈ rows, rowSynced st.db r = true) →
    (runRows st rows).1.db = st.db ∧
    (runRows st rows).1.published = st.published ∧
    (runRows st rows).1.inserted = st.inserted ∧
    (runRows st rows).1.updated = st.updated ∧
    (runRows st rows).1.classes.length = st.classes.length + rows.length ∧
    (runRows st rows).2 = false ∧
    (∀ c ∈ (runRows st rows).1.classes, c ∈ st.classes ∨ c.1 = Classification.UNCHANGED) := by
  intro rows
  induction rows with
  | nil =>
    intro st _
    exact ⟨rfl, rfl, rfl, rfl, rfl, rfl, fun c hc => Or.inl hc⟩
  | cons r rs ih =>
    intro st hall
    have hr := hall r (List.mem_cons_self r rs)
    unfold rowSynced at hr
    cases hf : readFields r with
    | none => rw [hf] at hr; simp at hr
    | some f =>
      rw [hf] at hr
      have hr2 : fieldsSynced st.db f = true := hr
      unfold fieldsSynced at hr2
      cases hfind : findRow st.db f.type_id with
      | none => rw [hfind] at hr2; simp at hr2
      | some e =>
        rw [hfind] at hr2
        have hr3 : (!(rowChanged e f)) = true := hr2
        have hc : rowChanged e f = false := by simpa using hr3
        rw [runRows_cons_some hf, applyRow_unchanged hfind hc]
        have hsync2 : ∀ x ∈ rs,
            rowSynced ({ st with classes := st.classes ++ [(Classification.UNCHANGED, f)] } : RunState).db x = true :=
          fun x hx => hall x (List.mem_cons_of_mem r hx)
        obtain ⟨i1, i2, i3, i4, i5, i6, i7⟩ := ih _ hsync2
        refine ⟨by rw [i1], by rw [i2], by rw [i3], by rw [i4], ?_, i6, ?_⟩
        · rw [i5]
          simp
          omega
        · intro c hc2
          rcases i7 c hc2 with h1 | h2
          · have h1' : c ∈ st.classes ++ [(Classification.UNCHANGED, f)] := h1
            rcases List.mem_append.mp h1' with h3 | h4
            · exact Or.inl h3
            · right
              have hcv : c = (Classification.UNCHANGED, f) := by simpa using h4
              rw [hcv]
          · exact Or.inr h2

/-- A run over well-formed rows never aborts and logs one
classification per row. -/
theorem runRows_wf : ∀ (rows : List CsvRow) (st : RunState),
    (∀ r ∈ rows, (readFields r).isSome = true) →
    (runRows st rows).2 = false ∧
    (runRows st rows).1.classes.length = st.classes.length + rows.length := by
  intro rows
  induction rows with
  | nil => intro st _; exact ⟨rfl, rfl⟩
  | cons r rs ih =>
    intro st hall
    have hr := hall r (List.mem_cons_self r rs)
    cases hf : readFields r with
    | none => rw [hf] at hr; simp at hr
    | some f =>
      rw [runRows_cons_some hf]
      obtain ⟨i1, i2⟩ := ih (applyRow st f) (fun x hx => hall x (List.mem_cons_of_mem r hx))
      refine ⟨i1, ?_⟩
      have hlen : (applyRow st f).classes.length = st.classes.length + 1 := by
        rw [applyRow_classes]
        simp
      rw [i2, hlen]
      simp
      omega

/-- The loop over a concatenation continues from the state reached
after the first part, provided that part did not abort: the state at
every row boundary is a genuine commit point. -/
theorem runRows_append : ∀ (l1 l2 : List CsvRow) (st : RunState),
    (runRows st l1).2 = false →
    runRows st (l1 ++ l2) = runRows (runRows st l1).1 l2 := by
  intro l1
  induction l1 with
  | nil => intro l2 st _; rfl
  | cons r rs ih =>
    intro l2 st h
    cases hf : readFields r with
    | none =>
      rw [runRows_cons_none hf] at h
      simp at h
    | some f =>
      rw [runRows_cons_some hf] at h
      rw [List.cons_append, runRows_cons_some hf, runRows_cons_some hf]
      exact ih l2 (applyRow st f) h

/-- A malformed row aborts the loop exactly at its position, returning
the committed state reached by the preceding rows. -/
theorem runRows_abort_at : ∀ (pre : List CsvRow) (st : RunState) (bad : CsvRow)
    (post : List CsvRow),
    (∀ r ∈ pre, (readFields r).isSome = true) →
    readFields bad = none →
    runRows st (pre ++ bad :: post) = ((runRows st pre).1, true) := by
  intro pre
  induction pre with
  | nil =>
    intro st bad post _ hbad
    rw [List.nil_append, runRows_cons_none hbad]
    rfl
  | cons r rs ih =>
    intro st bad post hall hbad
    have hr := hall r (List.mem_cons_self r rs)
    cases hf : readFields r with
    | none => rw [hf] at hr; simp at hr
    | some f =>
      rw [List.cons_append, runRows_cons_some hf, runRows_cons_some hf]
      exact ih (applyRow st f) bad post (fun x hx => hall x (List.mem_cons_of_mem r hx)) hbad

/-- The table evolution of the loop body depends only on the incoming
table. -/
theorem applyRow_db_congr {st1 st2 : RunState} (f : Fields) (h : st1.db = st2.db) :
    (applyRow st1 f).db = (applyRow st2 f).db := by
  cases hfind : findRow st2.db f.type_id with
  | none =>
    have hfind1 : findRow st1.db f.type_id = none := by rw [h]; exact hfind
    rw [(applyRow_parts_insert hfind1).1, (applyRow_parts_insert hfind).1, h]
  | some e =>
    have hfind1 : findRow st1.db f.type_id = some e := by rw [h]; exact hfind
    by_cases hc : rowChanged e f = true
    · rw [(applyRow_parts_update hfind1 hc).1, (applyRow_parts_update hfind hc).1, h]
    · have hc' : rowChanged e f = false := by simpa using hc
      rw [(applyRow_parts_unchanged hfind1 hc').1, (applyRow_parts_unchanged hfind hc').1, h]

/-- The table evolution of the whole loop depends only on the incoming
table. -/
theorem runRows_db_congr : ∀ (rows : List CsvRow) (st1 st2 : RunState), st1.db = st2.db →
    (runRows st1 rows).1.db = (runRows st2 rows).1.db := by
  intro rows
  induction rows with
  | nil => intro st1 st2 h; exact h
  | cons r rs ih =>
    intro st1 st2 h
    cases hf : readFields r with
    | none => rw [runRows_cons_none hf, runRows_cons_none hf]; exact h
    | some f =>
      rw [runRows_cons_some hf, runRows_cons_some hf]
      exact ih _ _ (applyRow_db_congr f h)

/-- After a full run over well-formed rows with pairwise distinct keys,
every snapshot row is in sync with the resulting table. -/
theorem runRows_establish : ∀ (rows : List CsvRow) (st : RunState),
    (∀ r ∈ rows, (readFields r).isSome = true) →
    (snapKeys rows).Nodup →
    ∀ r ∈ rows, rowSynced (runRows st rows).1.db r = true := by
  intro rows
  induction rows with
  | nil => intro st _ _ r hr; cases hr
  | cons x xs ih =>
    intro st hwf hnd r hr
    have hx := hwf x (List.mem_cons_self x xs)
    cases hfx : readFields x with
    | none => rw [hfx] at hx; simp at hx
    | some f =>
      have hkeys : snapKeys (x :: xs) = f.type_id :: snapKeys xs := by
        unfold snapKeys
        rw [List.filterMap_cons, hfx]
        rfl
      rw [hkeys] at hnd
      have hnotin : f.type_id ∉ snapKeys xs := (List.nodup_cons.mp hnd).1
      have hnd2 : (snapKeys xs).Nodup := (List.nodup_cons.mp hnd).2
      have hdiff : ∀ y ∈ xs, ∀ g, readFields y = some g → g.type_id ≠ f.type_id := by
        intro y hy g hg heq
        apply hnotin
        rw [← heq]
        exact List.mem_filterMap.mpr ⟨y, hy, by rw [hg]; rfl⟩
      rw [runRows_cons_some hfx]
      rcases List.mem_cons.mp hr with h1 | h2
      · subst h1
        have hfr : findRow (runRows (applyRow st f) xs).1.db f.type_id =
            findRow (applyRow st f).db f.type_id :=
          runRows_frame xs (applyRow st f) f.type_id hdiff
        have hgoal : fieldsSynced (runRows (applyRow st f) xs).1.db f = true := by
          rw [fieldsSynced_congr f hfr]
          exact applyRow_fieldsSynced st f (readFields_normed hfx)
        unfold rowSynced
        rw [hfx]
        exact hgoal
      · exact ih (applyRow st f) (fun y hy => hwf y (List.mem_cons_of_mem x hy)) hnd2 r h2

/-- The loop body preserves the notification bookkeeping: published
bodies are exactly the normalized URLs of the INSERT/UPDATE log
entries, and the counters count the log. -/
theorem notif_applyRow (st : RunState) (f : Fields)
    (h1 : st.published = (st.classes.filter isChangedClass).map urlOf)
    (h2 : st.inserted = (st.classes.filter isInsert).length)
    (h3 : st.updated = (st.classes.filter isUpdate).length) :
    (applyRow st f).published = ((applyRow st f).classes.filter isChangedClass).map urlOf ∧
    (applyRow st f).inserted = ((applyRow st f).classes.filter isInsert).length ∧
    (applyRow st f).updated = ((applyRow st f).classes.filter isUpdate).length := by
  cases hfind : findRow st.db f.type_id with
  | none =>
    obtain ⟨d1, d2, d3, d4, d5⟩ := applyRow_parts_insert hfind
    rw [d2, d3, d4, d5]
    refine ⟨?_, ?_, ?_⟩
    · rw [List.filter_append, List.map_append, ← h1]
      simp [List.filter, isChangedClass, urlOf]
    · rw [List.filter_append, List.length_append, ← h2]
      simp [List.filter, isInsert]
    · rw [List.filter_append, List.length_append, ← h3]
      simp [List.filter, isUpdate]
  | some e =>
    by_cases hc : rowChanged e f = true
    · obtain ⟨d1, d2, d3, d4, d5⟩ := applyRow_parts_update hfind hc
      rw [d2, d3, d4, d5]
      refine ⟨?_, ?_, ?_⟩
      · rw [List.filter_append, List.map_append, ← h1]
        simp [List.filter, isChangedClass, urlOf]
      · rw [List.filter_append, List.length_append, ← h2]
        simp [List.filter, isInsert]
      · rw [List.filter_append, List.length_append, ← h3]
        simp [List.filter, isUpdate]
    · have hc' : rowChanged e f = false := by simpa using hc
      obtain ⟨d1, d2, d3, d4, d5⟩ := applyRow_parts_unchanged hfind hc'
      rw [d2, d3, d4, d5]
      refine ⟨?_, ?_, ?_⟩
      · rw [List.filter_append, List.map_append, ← h1]
        simp [List.filter, isChangedClass, urlOf]
      · rw [List.filter_append, List.length_append, ← h2]
        simp [List.filter, isInsert]
      · rw [List.filter_append, List.length_append, ← h3]
        simp [List.filter, isUpdate]

/-- The whole loop preserves the notification bookkeeping. -/
theorem notif_runRows : ∀ (rows : List CsvRow) (st : RunState),
    st.published = (st.classes.filter isChangedClass).map urlOf →
    st.inserted = (st.classes.filter isInsert).length →
    st.updated = (st.classes.filter isUpdate).length →
    (runRows st rows).1.published = ((runRows st rows).1.classes.filter isChangedClass).map urlOf ∧
    (runRows st rows).1.inserted = ((runRows st rows).1.classes.filter isInsert).length ∧
    (runRows st rows).1.updated = ((runRows st rows).1.classes.filter isUpdate).length := by
  intro rows
  induction rows with
  | nil => intro st h1 h2 h3; exact ⟨h1, h2, h3⟩
  | cons r rs ih =>
    intro st h1 h2 h3
    cases hf : readFields r with
    | none =>
      rw [runRows_cons_none hf]
      exact ⟨h1, h2, h3⟩
    | some f =>
      rw [runRows_cons_some hf]
      obtain ⟨k1, k2, k3⟩ := notif_applyRow st f h1 h2 h3
      exact ih (applyRow st f) k1 k2 k3

/-- Counting a three-way partition of the classification log: the
non-UNCHANGED entries are the INSERT entries plus the UPDATE entries. -/
theorem filter_changed_split : ∀ l : List (Classification × Fields),
    (l.filter isChangedClass).length =
      (l.filter isInsert).length + (l.filter isUpdate).length := by
  intro l
  induction l with
  | nil => rfl
  | cons c t ih =>
    rcases c with ⟨cl, g⟩
    cases cl <;> simp [List.filter, isChangedClass, isInsert, isUpdate, ih] <;> omega

/-- Rows at keys not updated by a whole-table UPDATE are untouched. -/
theorem filter_updateRows (db : List Row) (f : Fields) (tid : String)
    (hne : f.type_id ≠ tid) :
    (updateRows db f).filter (fun r => r.type_id == tid) =
      db.filter (fun r => r.type_id == tid) := by
  induction db with
  | nil => rfl
  | cons r d ih =>
    show (updRow f r :: updateRows d f).filter _ = _
    by_cases h : (r.type_id == tid) = true
    · have hr : r.type_id = tid := by simpa using h
      have hupd : updRow f r = r := by
        unfold updRow
        have hb : (r.type_id == f.type_id) = false := by
          rw [hr]
          exact beq_eq_false_iff_ne.mpr (Ne.symm hne)
        simp [hb]
      rw [List.filter_cons, List.filter_cons, hupd]
      simp [h, ih]
    · have h' : (r.type_id == tid) = false := by simpa using h
      have hproj : ((updRow f r).type_id == tid) = false := by
        rw [updRow_type_id]
        exact h'
      rw [List.filter_cons, List.filter_cons]
      simp [h', hproj, ih]

/-- The loop body leaves all rows at other keys exactly as they are. -/
theorem applyRow_filter_frame (st : RunState) (f : Fields) (tid : String)
    (hne : f.type_id ≠ tid) :
    (applyRow st f).db.filter (fun r => r.type_id == tid) =
      st.db.filter (fun r => r.type_id == tid) := by
  cases hfind : findRow st.db f.type_id with
  | none =>
    rw [(applyRow_parts_insert hfind).1, List.filter_append]
    have hb : ((insertRow f).type_id == tid) = false := beq_eq_false_iff_ne.mpr hne
    simp [List.filter, hb]
  | some e =>
    by_cases hc : rowChanged e f = true
    · rw [(applyRow_parts_update hfind hc).1]
      exact filter_updateRows st.db f tid hne
    · have hc' : rowChanged e f = false := by simpa using hc
      rw [(applyRow_parts_unchanged hfind hc').1]

/-- The whole loop leaves all rows at keys outside the snapshot exactly
as they are. -/
theorem runRows_filter_frame : ∀ (rows : List CsvRow) (st : RunState) (tid : String),
    (∀ r ∈ rows, ∀ f, readFields r = some f → f.type_id ≠ tid) →
    (runRows st rows).1.db.filter (fun r => r.type_id == tid) =
      st.db.filter (fun r => r.type_id == tid) := by
  intro rows
  induction rows with
  | nil => intro st tid _; rfl
  | cons r rs ih =>
    intro st tid hall
    cases hf : readFields r with
    | none => rw [runRows_cons_none hf]
    | some f =>
      rw [runRows_cons_some hf,
          ih (applyRow st f) tid (fun x hx g hg => hall x (List.mem_cons_of_mem r hx) g hg)]
      exact applyRow_filter_frame st f tid (hall r (List.mem_cons_self r rs) f hf)

/-- The loop body keeps a row (possibly updated in place) for every key
already in the table. -/
theorem applyRow_key_surv (st : RunState) (f : Fields) :
    ∀ e ∈ st.db, ∃ e2, e2 ∈ (applyRow st f).db ∧ e2.type_id = e.type_id := by
  intro e he
  cases hfind : findRow st.db f.type_id with
  | none =>
    rw [(applyRow_parts_insert hfind).1]
    exact ⟨e, List.mem_append.mpr (Or.inl he), rfl⟩
  | some e3 =>
    by_cases hc : rowChanged e3 f = true
    · rw [(applyRow_parts_update hfind hc).1]
      unfold updateRows
      exact ⟨updRow f e, List.mem_map.mpr ⟨e, he, rfl⟩, updRow_type_id f e⟩
    · have hc' : rowChanged e3 f = false := by simpa using hc
      rw [(applyRow_parts_unchanged hfind hc').1]
      exact ⟨e, he, rfl⟩

/-- The whole loop keeps a row for every key already in the table: the
reconciler never deletes. -/
theorem runRows_key_surv : ∀ (rows : List CsvRow) (st : RunState),
    ∀ e ∈ st.db, ∃ e2, e2 ∈ (runRows st rows).1.db ∧ e2.type_id = e.type_id := by
  intro rows
  induction rows with
  | nil => intro st e he; exact ⟨e, he, rfl⟩
  | cons r rs ih =>
    intro st e he
    cases hf : readFields r with
    | none =>
      rw [runRows_cons_none hf]
      exact ⟨e, he, rfl⟩
    | some f =>
      rw [runRows_cons_some hf]
      obtain ⟨e2, he2, hid⟩ := applyRow_key_surv st f e he
      obtain ⟨e3, he3, hid2⟩ := ih (applyRow st f) e2 he2
      exact ⟨e3, he3, by rw [hid2, hid]⟩

/-- The whole loop never shrinks the table. -/
theorem runRows_db_len : ∀ (rows : List CsvRow) (st : RunState),
    st.db.length ≤ (runRows st rows).1.db.length := by
  intro rows
  induction rows with
  | nil => intro st; exact Nat.le_refl _
  | cons r rs ih =>
    intro st
    cases hf : readFields r with
    | none =>
      rw [runRows_cons_none hf]
    | some f =>
      rw [runRows_cons_some hf]
      exact Nat.le_trans (applyRow_db_len st f) (ih (applyRow st f))

/-- A basename contains no path separator. -/
theorem basename_no_slash (p : String) : ∀ c ∈ (basename p).data, ¬ c = slashChar := by
  intro c hc
  have hc2 : c ∈ p.data.reverse.takeWhile (fun x => !(x == slashChar)) := by
    rw [← List.mem_reverse]
    exact hc
  have := List.mem_takeWhile_imp hc2
  simpa using this

/-- A basename never starts with a separator. -/
theorem basename_startsWith (p : String) : startsWithSlash (basename p) = false := by
  unfold startsWithSlash
  cases h : (basename p).data with
  | nil => rfl
  | cons c t =>
    have hc : ¬ c = slashChar :=
      basename_no_slash p c (by rw [h]; exact List.mem_cons_self c t)
    simpa using hc

/-- The basename only depends on what follows the last separator:
leading directory components are discarded entirely. -/
theorem basename_append (dirs rest : String) :
    basename (dirs ++ sSlash ++ rest) = basename rest := by
  unfold basename
  congr 1
  rw [String.data_append, String.data_append,
      show sSlash.data = [slashChar] from rfl,
      List.reverse_append, List.reverse_append]
  congr 1
  rw [show ([slashChar].reverse : List Char) = [slashChar] from rfl, List.singleton_append]
  exact takeWhile_stop (fun x => !(x == slashChar)) slashChar (by simp) _ _

/-- The file path process_csv opens, for a data directory that is
nonempty and not slash-terminated. -/
theorem filePath_eq (dataDir msg : String)
    (h1 : dataDir.data ≠ []) (h2 : endsWithSlash dataDir = false) :
    filePath dataDir msg = dataDir ++ sSlash ++ basename msg := by
  have hb := basename_startsWith msg
  have hempty : dataDir.data.isEmpty = false := by
    cases hd : dataDir.data with
    | nil => exact absurd hd h1
    | cons a b => rfl
  simp [filePath, osPathJoin, hb, hempty, h2]

/-! The claim theorems. -/

/-- C1: when every snapshot row is already in sync with the persisted
table, process_csv classifies every row UNCHANGED, performs zero
INSERT/UPDATE writes and publishes zero notifications; consequently,
for a well-formed snapshot with pairwise distinct identifiers,
reconciling the same snapshot a second time yields zero INSERT/UPDATE
classifications, zero writes and zero notifications. -/
theorem c1_reconciler_idempotent (db : List Row) (rows : List CsvRow) :
    ((∀ r ∈ rows, rowSynced db r = true) →
      (process_csv db rows).2 = false ∧
      (process_csv db rows).1.db = db ∧
      (process_csv db rows).1.published = [] ∧
      (process_csv db rows).1.inserted = 0 ∧
      (process_csv db rows).1.updated = 0 ∧
      (process_csv db rows).1.classes.length = rows.length ∧
      (∀ c ∈ (process_csv db rows).1.classes, c.1 = Classification.UNCHANGED)) ∧
    ((∀ r ∈ rows, (readFields r).isSome = true) →
      (snapKeys rows).Nodup →
      (process_csv ((process_csv db rows).1.db) rows).2 = false ∧
      (process_csv ((process_csv db rows).1.db) rows).1.db = (process_csv db rows).1.db ∧
      (process_csv ((process_csv db rows).1.db) rows).1.published = [] ∧
      (process_csv ((process_csv db rows).1.db) rows).1.inserted = 0 ∧
      (process_csv ((process_csv db rows).1.db) rows).1.updated = 0 ∧
      (∀ c ∈ (process_csv ((process_csv db rows).1.db) rows).1.classes,
        c.1 = Classification.UNCHANGED)) := by
  constructor
  · intro hsync
    unfold process_csv
    obtain ⟨i1, i2, i3, i4, i5, i6, i7⟩ :=
      runRows_all_synced rows (initState db) (fun r hr => hsync r hr)
    refine ⟨i6, i1, by rw [i2]; rfl, by rw [i3]; rfl, by rw [i4]; rfl, ?_, ?_⟩
    · rw [i5]
      simp [initState]
    · intro c hc
      rcases i7 c hc with h1 | h2
      · exact absurd h1 (List.not_mem_nil c)
      · exact h2
  · intro hwf hnd
    have hest : ∀ r ∈ rows, rowSynced (process_csv db rows).1.db r = true :=
      runRows_establish rows (initState db) hwf hnd
    unfold process_csv
    obtain ⟨i1, i2, i3, i4, i5, i6, i7⟩ :=
      runRows_all_synced rows (initState ((runRows (initState db) rows).1.db))
        (fun r hr => hest r hr)
    refine ⟨i6, i1, by rw [i2]; rfl, by rw [i3]; rfl, by rw [i4]; rfl, ?_⟩
    intro c hc
    rcases i7 c hc with h1 | h2
    · exact absurd h1 (List.not_mem_nil c)
    · exact h2

/-- C1 witness: a one-row snapshot in sync with a one-row table. -/
theorem c1_witness :
    (∀ r ∈ [csvRowT1], rowSynced [rowT1] r = true) ∧
    (∀ r ∈ [csvRowT1], (readFields r).isSome = true) ∧
    (snapKeys [csvRowT1]).Nodup ∧
    (process_csv [rowT1] [csvRowT1]).1.published = [] ∧
    (process_csv [rowT1] [csvRowT1]).1.db = [rowT1] ∧
    (process_csv ((process_csv [rowT1] [csvRowT1]).1.db) [csvRowT1]).1.published = [] := by
  refine ⟨by decide, by decide, by decide, ?_, ?_, ?_⟩
  · exact ((c1_reconciler_idempotent [rowT1] [csvRowT1]).1 (by decide)).2.2.1
  · exact ((c1_reconciler_idempotent [rowT1] [csvRowT1]).1 (by decide)).2.1
  · exact ((c1_reconciler_idempotent [rowT1] [csvRowT1]).2 (by decide) (by decide)).2.2.1

/-- C2 counterexample: an INSERT publishes exactly one notification,
but its body is the bare detail URL, which does not contain the
record's TypeID (T1) at all, so the notification does not carry the
TypeID. -/
theorem c2_counterexample :
    (process_csv [] [csvRowA]).1.inserted = 1 ∧
    (process_csv [] [csvRowA]).1.published = [urlT1] ∧
    isSubstr tT1.data urlT1.data = false := by
  exact ⟨by decide, by decide, by decide⟩

/-- C2 (amended): exactly one notification is published per INSERT and
per UPDATE classification, in processing order, and each notification
carries exactly the record's normalized detail URL (not the TypeID);
UNCHANGED rows publish nothing. -/
theorem c2_notifications (db : List Row) (rows : List CsvRow) :
    (process_csv db rows).1.published =
      ((process_csv db rows).1.classes.filter isChangedClass).map urlOf ∧
    (process_csv db rows).1.published.length =
      (process_csv db rows).1.inserted + (process_csv db rows).1.updated := by
  unfold process_csv
  obtain ⟨k1, k2, k3⟩ := notif_runRows rows (initState db) rfl rfl rfl
  refine ⟨k1, ?_⟩
  rw [k1, k2, k3, List.length_map, filter_changed_split]

/-- C3: the classification of a snapshot row is INSERT exactly when the
lookup misses, UPDATE exactly when it hits a row with some tracked
field differing after normalization, UNCHANGED exactly when it hits a
row with no difference; the three cases are exhaustive (and exclusive,
classify being a function into a three-element type), and the loop body
logs exactly this classification for each processed row. -/
theorem c3_classification_partition (db : List Row) (f : Fields) (st : RunState) (e : Row) :
    (classify db f = Classification.INSERT ↔ findRow db f.type_id = none) ∧
    (classify db f = Classification.UPDATE ↔
      ∃ e2, findRow db f.type_id = some e2 ∧ rowChanged e2 f = true) ∧
    (classify db f = Classification.UNCHANGED ↔
      ∃ e2, findRow db f.type_id = some e2 ∧ rowChanged e2 f = false) ∧
    (classify db f = Classification.INSERT ∨ classify db f = Classification.UPDATE ∨
      classify db f = Classification.UNCHANGED) ∧
    (rowChanged e f = true ↔
      (normalize e.ein ≠ f.ein ∨ normalize e.type_name ≠ f.type_name ∨
       normalize e.status ≠ f.status ∨ normalize e.last_update ≠ f.last_update ∨
       normalize e.url_tv ≠ f.url_tv)) ∧
    (applyRow st f).classes = st.classes ++ [(classify st.db f, f)] := by
  refine ⟨?_, ?_, ?_, ?_, ?_, applyRow_classes st f⟩
  · constructor
    · intro h
      cases hfind : findRow db f.type_id with
      | none => rfl
      | some e2 =>
        by_cases hc : rowChanged e2 f = true
        · rw [classify_of_changed hfind hc] at h
          exact Classification.noConfusion h
        · have hc' : rowChanged e2 f = false := by simpa using hc
          rw [classify_of_unchanged hfind hc'] at h
          exact Classification.noConfusion h
    · intro h
      exact classify_of_none h
  · constructor
    · intro h
      cases hfind : findRow db f.type_id with
      | none =>
        rw [classify_of_none hfind] at h
        exact Classification.noConfusion h
      | some e2 =>
        by_cases hc : rowChanged e2 f = true
        · exact ⟨e2, rfl, hc⟩
        · have hc' : rowChanged e2 f = false := by simpa using hc
          rw [classify_of_unchanged hfind hc'] at h
          exact Classification.noConfusion h
    · rintro ⟨e2, hfind, hc⟩
      exact classify_of_changed hfind hc
  · constructor
    · intro h
      cases hfind : findRow db f.type_id with
      | none =>
        rw [classify_of_none hfind] at h
        exact Classification.noConfusion h
      | some e2 =>
        by_cases hc : rowChanged e2 f = true
        · rw [classify_of_changed hfind hc] at h
          exact Classification.noConfusion h
        · have hc' : rowChanged e2 f = false := by simpa using hc
          exact ⟨e2, rfl, hc'⟩
    · rintro ⟨e2, hfind, hc⟩
      exact classify_of_unchanged hfind hc
  · cases hfind : findRow db f.type_id with
    | none => exact Or.inl (classify_of_none hfind)
    | some e2 =>
      by_cases hc : rowChanged e2 f = true
      · exact Or.inr (Or.inl (classify_of_changed hfind hc))
      · have hc' : rowChanged e2 f = false := by simpa using hc
        exact Or.inr (Or.inr (classify_of_unchanged hfind hc'))
  · unfold rowChanged
    simp [bne_iff_ne, or_assoc]

/-- C4: the normalization maps a missing value to the empty string and
otherwise strips exactly a whitespace border; spaced and plain values
normalize alike, a missing field normalizes like an empty string, and
the changed comparison depends only on normalized values. -/
theorem c4_normalization :
    normalize none = emptyStr ∧
    (∀ s : String, ∃ pre post, s.data = pre ++ (normalize (some s)).data ++ post ∧
      (∀ c ∈ pre, isSpace c = true) ∧ (∀ c ∈ post, isSpace c = true)) ∧
    normalize (some sSpacedActive) = vStatus ∧
    normalize (some vStatus) = vStatus ∧
    normalize none = normalize (some emptyStr) ∧
    (∀ e1 e2 : Row, ∀ f : Fields,
      normalize e1.ein = normalize e2.ein →
      normalize e1.type_name = normalize e2.type_name →
      normalize e1.status = normalize e2.status →
      normalize e1.last_update = normalize e2.last_update →
      normalize e1.url_tv = normalize e2.url_tv →
      rowChanged e1 f = rowChanged e2 f) := by
  refine ⟨by decide, ?_, by decide, by decide, by decide, ?_⟩
  · intro s
    exact pyStrip_decomp s
  · intro e1 e2 f h1 h2 h3 h4 h5
    unfold rowChanged
    rw [h1, h2, h3, h4, h5]

/-- C4 witness: two stored rows equal after normalization compare the
same against concrete fields. -/
theorem c4_witness :
    normalize rowSp.ein = normalize rowPl.ein ∧
    normalize rowSp.type_name = normalize rowPl.type_name ∧
    normalize rowSp.status = normalize rowPl.status ∧
    normalize rowSp.last_update = normalize rowPl.last_update ∧
    normalize rowSp.url_tv = normalize rowPl.url_tv ∧
    rowChanged rowSp fW = rowChanged rowPl fW := by
  refine ⟨by decide, by decide, by decide, by decide, by decide, ?_⟩
  exact c4_normalization.2.2.2.2.2 rowSp rowPl fW
    (by decide) (by decide) (by decide) (by decide) (by decide)

/-- C5: the reconciler publishes the bare URL as notification body, and
the detail-page fetcher can only unpack the piped framing: the very
message the reconciler sends makes the split-unpack raise ValueError
(parse result none, message nacked), while the piped framing parses. -/
theorem c5_consumer_framing :
    (process_csv [] [csvRowA]).1.published = [urlT1] ∧
    callbackParse urlT1 = none ∧
    callbackParse (tT1 ++ sBarStr ++ urlT1) = some (tT1, urlT1) := by
  exact ⟨by decide, by decide, by decide⟩

/-- C6 counterexample: processing the same parsed-record message twice
in the ingest stage does not leave the table as processing it once: a
second identical row is inserted. -/
theorem c6_counterexample :
    insert_into_db (insert_into_db [] mParsed) mParsed ≠ insert_into_db [] mParsed := by
  decide

/-- C6 (amended): the reconciler is idempotent under redelivery, but
the ingest stage is not: its plain INSERT appends one row per
processing, so a redelivered parsed-record message creates a duplicate
persisted row. -/
theorem c6_ingest_duplicates (items : List Item) (d : ParsedMsg) :
    insert_into_db (insert_into_db items d) d = items ++ [itemOf d, itemOf d] ∧
    (insert_into_db items d).length = items.length + 1 := by
  constructor
  · unfold insert_into_db
    rw [List.append_assoc]
    rfl
  · unfold insert_into_db
    rw [List.length_append]
    rfl

/-- C7 counterexample: a snapshot row whose TypeID cell is empty is not
skipped: it is classified (INSERT on an empty table) and publishes a
notification. -/
theorem c7_counterexample :
    (process_csv [] [csvRowEmptyId]).2 = false ∧
    (process_csv [] [csvRowEmptyId]).1.classes.length = 1 ∧
    (process_csv [] [csvRowEmptyId]).1.inserted = 1 ∧
    (process_csv [] [csvRowEmptyId]).1.published = [urlT2] := by
  exact ⟨by decide, by decide, by decide, by decide⟩

/-- C7 (amended): rows with an empty TypeID are processed like any
other row (every well-formed row of a batch is classified, and the
batch completes); a row missing an expected column instead aborts the
whole batch at that row — the message is nacked — rather than being
skipped individually. -/
theorem c7_row_errors (db : List Row) (rows pre post : List CsvRow) (bad : CsvRow) :
    ((∀ r ∈ rows, (readFields r).isSome = true) →
      (process_csv db rows).2 = false ∧
      (process_csv db rows).1.classes.length = rows.length) ∧
    ((∀ r ∈ pre, (readFields r).isSome = true) →
      readFields bad = none →
      process_csv db (pre ++ bad :: post) = ((process_csv db pre).1, true) ∧
      (process_csv db (pre ++ bad :: post)).1.classes.length = pre.length) := by
  constructor
  · intro hwf
    unfold process_csv
    obtain ⟨w1, w2⟩ := runRows_wf rows (initState db) hwf
    refine ⟨w1, ?_⟩
    rw [w2]
    simp [initState]
  · intro hwf hbad
    unfold process_csv
    have habort := runRows_abort_at pre (initState db) bad post hwf hbad
    refine ⟨habort, ?_⟩
    rw [habort]
    obtain ⟨w1, w2⟩ := runRows_wf pre (initState db) hwf
    have hlen : (runRows (initState db) pre).1.classes.length = pre.length := by
      rw [w2]
      simp [initState]
    exact hlen

/-- C7 witness: a well-formed row, then a row with a missing column,
then a further row: the run aborts after the first row. -/
theorem c7_witness :
    (∀ r ∈ [csvRowA], (readFields r).isSome = true) ∧
    readFields csvRowMissing = none ∧
    process_csv [] ([csvRowA] ++ csvRowMissing :: [csvRowB]) =
      ((process_csv [] [csvRowA]).1, true) ∧
    (process_csv [] ([csvRowA] ++ csvRowMissing :: [csvRowB])).1.classes.length = 1 := by
  refine ⟨by decide, by decide, ?_, ?_⟩
  · exact ((c7_row_errors [] [] [csvRowA] [csvRowB] csvRowMissing).2 (by decide) (by decide)).1
  · exact ((c7_row_errors [] [] [csvRowA] [csvRowB] csvRowMissing).2 (by decide) (by decide)).2

/-- C8 counterexample: interrupting a two-INSERT run after its first
row leaves exactly one of the run's two writes committed — neither none
of them nor all of them — so the run is not a single all-or-nothing
commit. -/
theorem c8_counterexample :
    (process_csv [] [csvRowA, csvRowB]).1.db.length = 2 ∧
    committedAfter [] [csvRowA, csvRowB] 1 ≠ [] ∧
    committedAfter [] [csvRowA, csvRowB] 1 ≠ (process_csv [] [csvRowA, csvRowB]).1.db := by
  exact ⟨by decide, by decide, by decide⟩

/-- C8 (amended): every INSERT/UPDATE is committed individually (one
commit per row), so the state at each row boundary is a durable commit
point and an interruption leaves exactly the preceding rows' writes
committed; a subsequent full run from any such partial state reaches
the same final table as an uninterrupted run (the next run reconciles
the gap). -/
theorem c8_per_row_commit (db : List Row) (rows rows2 : List CsvRow) (k : Nat) :
    ((process_csv db rows).2 = false →
      process_csv db (rows ++ rows2) = runRows (process_csv db rows).1 rows2) ∧
    ((∀ r ∈ rows, (readFields r).isSome = true) →
      (snapKeys rows).Nodup →
      (process_csv (committedAfter db rows k) rows).1.db = (process_csv db rows).1.db) := by
  constructor
  · intro h
    unfold process_csv at h
    unfold process_csv
    exact runRows_append rows rows2 (initState db) h
  · intro hwf hnd
    unfold process_csv committedAfter
    have hsplit : rows.take k ++ rows.drop k = rows := List.take_append_drop k rows
    have hwfpre : ∀ r ∈ rows.take k, (readFields r).isSome = true :=
      fun r hr => hwf r (List.take_subset k rows hr)
    have hndpre : (snapKeys (rows.take k)).Nodup := by
      have hsk : snapKeys rows = snapKeys (rows.take k) ++ snapKeys (rows.drop k) := by
        conv_lhs => rw [← hsplit]
        unfold snapKeys
        rw [List.filterMap_append]
      rw [hsk] at hnd
      exact hnd.of_append_left
    have hpre_ok : (runRows (initState db) (rows.take k)).2 = false :=
      (runRows_wf (rows.take k) (initState db) hwfpre).1
    have hsync : ∀ r ∈ rows.take k,
        rowSynced (runRows (initState db) (rows.take k)).1.db r = true :=
      runRows_establish (rows.take k) (initState db) hwfpre hndpre
    obtain ⟨j1, j2, j3, j4, j5, j6, j7⟩ :=
      runRows_all_synced (rows.take k)
        (initState ((runRows (initState db) (rows.take k)).1.db))
        (fun r hr => hsync r hr)
    have hA := runRows_append (rows.take k) (rows.drop k) (initState db) hpre_ok
    rw [hsplit] at hA
    have hB := runRows_append (rows.take k) (rows.drop k)
      (initState ((runRows (initState db) (rows.take k)).1.db)) j6
    rw [hsplit] at hB
    rw [hA, hB]
    exact runRows_db_congr (rows.drop k) _ _ (by rw [j1]; rfl)

/-- C8 witness: prefix compositionality and recovery at concrete
inputs. -/
theorem c8_witness :
    (process_csv [] [csvRowA]).2 = false ∧
    (∀ r ∈ [csvRowA, csvRowB], (readFields r).isSome = true) ∧
    (snapKeys [csvRowA, csvRowB]).Nodup ∧
    process_csv [] ([csvRowA] ++ [csvRowB]) = runRows (process_csv [] [csvRowA]).1 [csvRowB] ∧
    (process_csv (committedAfter [] [csvRowA, csvRowB] 1) [csvRowA, csvRowB]).1.db =
      (process_csv [] [csvRowA, csvRowB]).1.db := by
  refine ⟨by decide, by decide, by decide, ?_, ?_⟩
  · exact (c8_per_row_commit [] [csvRowA] [csvRowB] 0).1 (by decide)
  · exact (c8_per_row_commit [] [csvRowA, csvRowB] [] 1).2 (by decide) (by decide)

/-- C9: a run leaves every row whose key is outside the snapshot
byte-for-byte in place (same rows, same order, same multiplicity), a
row survives for every previously persisted key (nothing is deleted),
and the table never shrinks. -/
theorem c9_frame (db : List Row) (rows : List CsvRow) :
    (∀ tid, tid ∉ snapKeys rows →
      (process_csv db rows).1.db.filter (fun r => r.type_id == tid) =
        db.filter (fun r => r.type_id == tid)) ∧
    (∀ e ∈ db, ∃ e2, e2 ∈ (process_csv db rows).1.db ∧ e2.type_id = e.type_id) ∧
    db.length ≤ (process_csv db rows).1.db.length := by
  refine ⟨?_, ?_, ?_⟩
  · intro tid htid
    unfold process_csv
    have hdiff : ∀ r ∈ rows, ∀ f, readFields r = some f → f.type_id ≠ tid := by
      intro r hr f hf heq
      apply htid
      rw [← heq]
      exact List.mem_filterMap.mpr ⟨r, hr, by rw [hf]; rfl⟩
    exact runRows_filter_frame rows (initState db) tid hdiff
  · intro e he
    unfold process_csv
    exact runRows_key_surv rows (initState db) e he
  · unfold process_csv
    exact runRows_db_len rows (initState db)

/-- C9 witness: a row keyed Z9 survives a snapshot keyed T1 untouched. -/
theorem c9_witness :
    (tZ ∉ snapKeys [csvRowA]) ∧
    ((process_csv [rowZ] [csvRowA]).1.db.filter (fun r => r.type_id == tZ) =
      [rowZ].filter (fun r => r.type_id == tZ)) ∧
    rowZ ∈ ([rowZ] : List Row) ∧
    (∃ e2, e2 ∈ (process_csv [rowZ] [csvRowA]).1.db ∧ e2.type_id = rowZ.type_id) ∧
    [rowZ].length ≤ (process_csv [rowZ] [csvRowA]).1.db.length := by
  refine ⟨by decide, ?_, by decide, ?_, ?_⟩
  · exact (c9_frame [rowZ] [csvRowA]).1 tZ (by decide)
  · exact (c9_frame [rowZ] [csvRowA]).2.1 rowZ (by decide)
  · exact (c9_frame [rowZ] [csvRowA]).2.2

/-- C10: for any nonempty data directory not ending in a separator, the
path process_csv opens is always the directory, a separator, then the
basename of the message — a segment guaranteed to contain no separator
— and the directory components of the message (relative, traversal or
absolute alike) are discarded entirely: they never influence the opened
path. -/
theorem c10_path_confinement (dataDir msg dirs rest : String)
    (h1 : dataDir.data ≠ []) (h2 : endsWithSlash dataDir = false) :
    filePath dataDir msg = dataDir ++ sSlash ++ basename msg ∧
    (∀ c ∈ (basename msg).data, ¬ c = slashChar) ∧
    filePath dataDir (dirs ++ sSlash ++ rest) = filePath dataDir rest := by
  refine ⟨filePath_eq dataDir msg h1 h2, basename_no_slash msg, ?_⟩
  unfold filePath
  rw [basename_append]

/-- C10 witness: a traversal message resolves inside DATA_DIR. -/
theorem c10_witness :
    DATA_DIR.data ≠ [] ∧
    endsWithSlash DATA_DIR = false ∧
    filePath DATA_DIR mTraversal = DATA_DIR ++ sSlash ++ basename mTraversal ∧
    (∀ c ∈ (basename mTraversal).data, ¬ c = slashChar) ∧
    filePath DATA_DIR (mDirs ++ sSlash ++ mRest) = filePath DATA_DIR mRest := by
  refine ⟨by decide, by decide, ?_, ?_, ?_⟩
  · exact (c10_path_confinement DATA_DIR mTraversal mDirs mRest (by decide) (by decide)).1
  · exact (c10_path_confinement DATA_DIR mTraversal mDirs mRest (by decide) (by decide)).2.1
  · exact (c10_path_confinement DATA_DIR mTraversal mDirs mRest (by decide) (by decide)).2.2

end ProjetDE
